import Mathlib

/-!
Verification of the batch ingestion-and-classification pipeline of the
comment categorization tool (src/index.tsx).

Strings of the TypeScript source are modelled as `List Char`. Each
definition below is a direct shallow embedding of the function or
expression of the source named in its doc comment; React state updates
are modelled as explicit state passing, the external Gemini call as an
explicit outcome value, and `alert` calls as a returned counter.
-/

namespace CommentTool

/-- The record shape produced by the Classification Client
(src/index.tsx lines 122-125: original_text, category, reply). -/
structure ClassificationResult where
  original_text : List Char
  category : List Char
  reply : List Char
deriving DecidableEq

/-- One entry of the stats array (src/index.tsx line 318):
a category name with its count. -/
structure CategoryCount where
  category : List Char
  count : Nat
deriving DecidableEq

/-- The 8 registered category identifiers: the keys of
CATEGORY_DEFINITIONS (src/index.tsx lines 67-78). -/
def CATEGORIES : List (List Char) :=
  [ "praise".toList,
    "support".toList,
    "constructive_criticism".toList,
    "hate_abuse".toList,
    "threat".toList,
    "emotional".toList,
    "spam_irrelevant".toList,
    "question_suggestion".toList ]

/-- ASCII whitespace recognized by JavaScript trim (the characters that
occur in this code base's inputs). -/
def isJsWhitespace (c : Char) : Bool :=
  c == ' ' || c == '\t' || c == '\n' || c == '\r' || c == '\x0b' || c == '\x0c'

/-- JavaScript String.prototype.trim: strip whitespace from both ends. -/
def jsTrim (s : List Char) : List Char :=
  ((s.dropWhile isJsWhitespace).reverse.dropWhile isJsWhitespace).reverse

/-- JavaScript String.prototype.toLowerCase (ASCII range). -/
def jsToLower (s : List Char) : List Char :=
  s.map Char.toLower

/-- JavaScript String.prototype.includes: substring containment. -/
def hasSubstr (needle : List Char) : List Char → Bool
  | [] => needle.isEmpty
  | c :: rest => needle.isPrefixOf (c :: rest) || hasSubstr needle rest

/-- JavaScript text.split on the regular expression of line 345: a
boundary is a bare newline or a carriage return followed by a newline;
a lone carriage return does not split. -/
def splitLines : List Char → List (List Char)
  | [] => [[]]
  | '\r' :: '\n' :: rest => [] :: splitLines rest
  | '\n' :: rest => [] :: splitLines rest
  | c :: rest =>
    match splitLines rest with
    | [] => [[c]]
    | l :: ls => (c :: l) :: ls

/-- The local `lines` of handleFileUpload (src/index.tsx line 345):
split the file text on line boundaries and drop whitespace-only lines. -/
def uploadLines (text : List Char) : List (List Char) :=
  (splitLines text).filter (fun line => !(jsTrim line).isEmpty)

/-- The token "comment" of the header heuristic (line 347). -/
def commentToken : List Char := "comment".toList

/-- The token "text" of the header heuristic (line 347). -/
def headerTextToken : List Char := "text".toList

/-- The local `comments` of handleFileUpload (src/index.tsx lines 347-349):
if the first remaining line case-insensitively contains "comment" or
"text" it is a header and is dropped. -/
def uploadComments (text : List Char) : List (List Char) :=
  let lines := uploadLines text
  if 0 < lines.length ∧
      (hasSubstr commentToken (jsToLower (lines.headD [])) = true ∨
       hasSubstr headerTextToken (jsToLower (lines.headD [])) = true)
  then lines.drop 1
  else lines

/-- The local `limitedComments` of handleFileUpload (src/index.tsx
line 352): comments.slice(0, 200). -/
def limitedComments (text : List Char) : List (List Char) :=
  (uploadComments text).take 200

/-- The possible outcomes of the external generateContent call inside
processCommentWithGemini (src/index.tsx lines 129-148): either the call
rejects (network/service failure), or it resolves with a response whose
`text` property may be absent or empty. -/
inductive ServiceOutcome where
  | netFailure : ServiceOutcome
  | ok : Option (List Char) → ServiceOutcome

/-- JavaScript falsiness of response.text (line 149): undefined, null or
the empty string. -/
def isFalsyText : Option (List Char) → Bool
  | none => true
  | some t => t.isEmpty

/-- processCommentWithGemini (src/index.tsx lines 99-155) as a function
of the service outcome. JSON.parse is passed in as `parseJson` (a
platform primitive: it throws, i.e. returns `Except.error`, on malformed
input). A rejected network call and a parse failure are both caught by
the catch block and rethrown (line 153); a falsy response body returns
an empty array (line 149). -/
def processCommentWithGemini
    (parseJson : List Char → Except Unit (List ClassificationResult))
    (outcome : ServiceOutcome) : Except Unit (List ClassificationResult) :=
  match outcome with
  | ServiceOutcome.netFailure => Except.error ()
  | ServiceOutcome.ok text =>
    if isFalsyText text then Except.ok []
    else parseJson (text.getD [])

/-- The JavaScript number values the counting loop of calculateStats
can store: an integer count, or NaN — the result of incrementing a
value inherited from Object.prototype (a function or object coerces to
NaN). -/
inductive JsNum where
  | num : Nat → JsNum
  | nan : JsNum
deriving DecidableEq

/-- The increment of src/index.tsx line 312 on a stored value: NaN
propagates (NaN + 1 is NaN). -/
def jsIncr : JsNum → JsNum
  | JsNum.num n => JsNum.num (n + 1)
  | JsNum.nan => JsNum.nan

/-- The `x.count > 0` test of src/index.tsx line 318: false for NaN. -/
def jsPos : JsNum → Bool
  | JsNum.num n => decide (0 < n)
  | JsNum.nan => false

/-- The numeric value of a stored count (0 for NaN; the positivity
filter has already excluded NaN wherever this is applied). -/
def jsToNat : JsNum → Nat
  | JsNum.num n => n
  | JsNum.nan => 0

/-- The data-property member names of Object.prototype. Reading one of
these on a plain object returns the inherited function, so the
`counts[k] !== undefined` test of src/index.tsx line 311 passes even
though no own key exists; incrementing coerces the function to NaN and
the assignment creates an own key holding NaN. -/
def OBJECT_PROTOTYPE_KEYS : List (List Char) :=
  [ "constructor".toList, "hasOwnProperty".toList, "isPrototypeOf".toList,
    "propertyIsEnumerable".toList, "toLocaleString".toList,
    "toString".toList, "valueOf".toList,
    "__defineGetter__".toList, "__defineSetter__".toList,
    "__lookupGetter__".toList, "__lookupSetter__".toList ]

/-- The accessor member __proto__ of Object.prototype. Reading it on a
plain object returns the prototype object (so `!== undefined` passes),
but assigning a number goes through the inherited setter, which
silently ignores non-object values — no own key is ever created. -/
def PROTO_KEY : List Char := "__proto__".toList

/-- One step of the counting loop of calculateStats (src/index.tsx
lines 310-316), faithful to JavaScript plain-object semantics. An own
key is incremented in place (NaN propagating); JavaScript objects keep
string keys in insertion order, modelled by the association list. When
no own key exists: a key naming an Object.prototype data member passes
the `!== undefined` test of line 311, so line 312 increments the
inherited function to NaN and stores NaN under a new own key;
"__proto__" also passes the test but the assignment hits the inherited
setter and stores nothing; any other key is undefined, takes the else
branch of line 314, and is created with count 1. -/
def bump : List (List Char × JsNum) → List Char → List (List Char × JsNum)
  | [], k =>
    if k = PROTO_KEY then []
    else if k ∈ OBJECT_PROTOTYPE_KEYS then [(k, JsNum.nan)]
    else [(k, JsNum.num 1)]
  | (key, v) :: rest, k =>
    if key = k then (key, jsIncr v) :: rest else (key, v) :: bump rest k

/-- The initial counts record of calculateStats (src/index.tsx
line 309): every registered category mapped to zero. -/
def initCounts : List (List Char × JsNum) :=
  CATEGORIES.map (fun c => (c, JsNum.num 0))

/-- The counts record after the forEach loop of calculateStats
(src/index.tsx lines 310-316). -/
def countsAfter (data : List ClassificationResult) : List (List Char × JsNum) :=
  data.foldl (fun m item => bump m item.category) initCounts

/-- Reading a key out of the counts record; an absent key reads as
count 0 (the effective count of a category never stored). -/
def lookupCount : List (List Char × JsNum) → List Char → JsNum
  | [], _ => JsNum.num 0
  | (key, v) :: rest, c => if key = c then v else lookupCount rest c

/-- One insertion step of the descending sort of line 319
(sort((a, b) => b.count - a.count), a stable sort per the JavaScript
specification). -/
def insertDesc (x : CategoryCount) : List CategoryCount → List CategoryCount
  | [] => [x]
  | y :: ys => if y.count < x.count then x :: y :: ys else y :: insertDesc x ys

/-- Stable descending-by-count sort (src/index.tsx line 319). -/
def sortDesc : List CategoryCount → List CategoryCount
  | [] => []
  | x :: xs => insertDesc x (sortDesc xs)

/-- calculateStats (src/index.tsx lines 307-320): run the counting
loop, keep the entries whose count is greater than 0 in key order
(dropping NaN entries, since `NaN > 0` is false), and sort by
descending count. The source maps keys to `(category, count)` objects
before filtering; here the filter runs on the pairs and the surviving
entries — necessarily positive integers — are converted after, which
builds the same list. -/
def calculateStats (data : List ClassificationResult) : List CategoryCount :=
  sortDesc
    (((countsAfter data).filter (fun p => jsPos p.2)).map
      (fun p => CategoryCount.mk p.1 (jsToNat p.2)))

/-- The sentinel selector of the category filter (src/index.tsx
lines 287 and 384). -/
def strAll : List Char := "all".toList

/-- filteredBatchData (src/index.tsx lines 383-386): identity for the
sentinel "all", exact category match otherwise. -/
def filteredBatchData (batchData : List ClassificationResult)
    (filterCategory : List Char) : List ClassificationResult :=
  if filterCategory = strAll then batchData
  else batchData.filter (fun item => decide (item.category = filterCategory))

/-- replace(/"/g, two quote characters) of src/index.tsx line 376:
double every embedded double quote. -/
def escapeQuotes (s : List Char) : List Char :=
  s.flatMap (fun c => if c = '"' then ['"', '"'] else [c])

/-- One data row of the export (src/index.tsx line 376): original text
and reply are quote-doubled, the category is interpolated verbatim;
every field is wrapped in double quotes and fields are comma-separated. -/
def csvRow (row : ClassificationResult) : List Char :=
  '"' :: (escapeQuotes row.original_text ++
    ('"' :: ',' :: '"' :: (row.category ++
      ('"' :: ',' :: '"' :: (escapeQuotes row.reply ++ ['"'])))))

/-- headers.join(",") of src/index.tsx lines 372-374. -/
def headerLine : List Char := "Original Comment,Category,Reply Suggestion".toList

/-- Array.prototype.join with a newline separator (line 378). -/
def joinNl : List (List Char) → List Char
  | [] => []
  | [l] => l
  | l :: ls => l ++ '\n' :: joinNl ls

/-- handleDownloadCSV (src/index.tsx lines 369-381): nothing is produced
for an empty result set; otherwise the header line and one row per entry
of batchData (the full loaded set) joined by newlines. -/
def handleDownloadCSV (batchData : List ClassificationResult) : Option (List Char) :=
  if batchData.length = 0 then none
  else some (joinNl (headerLine :: batchData.map csvRow))

/-- The batch pane's React state (src/index.tsx lines 285-288). -/
structure BatchState where
  batchData : List ClassificationResult
  stats : List CategoryCount
  batchLoading : Bool
  filterCategory : List Char
deriving DecidableEq

/-- handleFileUpload (src/index.tsx lines 336-367) as a state
transition. `classify` is the call to processCommentWithGemini with the
network behind it; the returned Nat counts the alert() calls of the
catch block (line 359). The busy flag is set, the filter reset to the
sentinel, the parsed file forwarded as `limitedComments`; on success the
data and stats are replaced, on failure one alert fires, and the finally
block always clears the busy flag. -/
def handleFileUpload
    (classify : List (List Char) → Except Unit (List ClassificationResult))
    (text : List Char) (s : BatchState) : BatchState × Nat :=
  let busy : BatchState := { s with batchLoading := true, filterCategory := strAll }
  match classify (limitedComments text) with
  | Except.ok results =>
    ({ busy with batchData := results, stats := calculateStats results,
                 batchLoading := false }, 0)
  | Except.error _ =>
    ({ busy with batchLoading := false }, 1)

/-- SAMPLE_COMMENTS (src/index.tsx lines 80-96). -/
def SAMPLE_COMMENTS : List (List Char) :=
  [ "This video changed my life, thank you so much!".toList,
    "Keep going, you're doing great!".toList,
    "The animation was okay but the voiceover felt off.".toList,
    "I didn't like the color scheme, it hurts my eyes.".toList,
    "You are garbage and nobody likes you.".toList,
    "This is the worst app ever, delete your channel.".toList,
    "I will find you and make you pay.".toList,
    "This reminds me of when I was a kid, good times.".toList,
    "Follow me for free iphone.".toList,
    "Can you make a video about Python basics?".toList,
    "Great content but the lighting is a bit dark.".toList,
    "I love this! When is the next part?".toList,
    "Useless video, waste of time.".toList,
    "My order hasn't arrived, please help.".toList,
    "Check out my profile for easy money.".toList ]

/-- handleBatchLoadSample (src/index.tsx lines 322-334) as a state
transition, with the same conventions as handleFileUpload. -/
def handleBatchLoadSample
    (classify : List (List Char) → Except Unit (List ClassificationResult))
    (s : BatchState) : BatchState × Nat :=
  let busy : BatchState := { s with batchLoading := true, filterCategory := strAll }
  match classify SAMPLE_COMMENTS with
  | Except.ok results =>
    ({ busy with batchData := results, stats := calculateStats results,
                 batchLoading := false }, 0)
  | Except.error _ =>
    ({ busy with batchLoading := false }, 1)

/-- The single-comment pane's React state (src/index.tsx lines 280-282). -/
structure SingleState where
  singleResult : Option ClassificationResult
  singleLoading : Bool
deriving DecidableEq

/-- handleSingleAnalyze (src/index.tsx lines 291-305) as a state
transition. The second component counts alert() calls, the third the
number of classification invocations. An input whose trim is empty
returns early (line 292) before any state change; otherwise the result
is nulled, classification invoked on the one-element batch, results[0]
stored when present, and the finally block clears the busy flag. -/
def handleSingleAnalyze
    (classify : List (List Char) → Except Unit (List ClassificationResult))
    (singleInput : List Char) (s : SingleState) : SingleState × Nat × Nat :=
  if (jsTrim singleInput).isEmpty then (s, 0, 0)
  else
    match classify [singleInput] with
    | Except.ok results => (SingleState.mk results.head? false, 0, 1)
    | Except.error _ => (SingleState.mk none false, 1, 1)

/-- The export as claim C6 reads it (spec wording, for comparison with
the source's handleDownloadCSV): one row per currently filtered result,
with every field — including the category — enclosed in double quotes
and embedded double quotes doubled. -/
def claimedExport (batchData : List ClassificationResult)
    (filterCategory : List Char) : List Char :=
  joinNl (headerLine :: (filteredBatchData batchData filterCategory).map
    (fun r =>
      '"' :: (escapeQuotes r.original_text ++
        ('"' :: ',' :: '"' :: (escapeQuotes r.category ++
          ('"' :: ',' :: '"' :: (escapeQuotes r.reply ++ ['"'])))))))

/-- The amended export contract: the header line, then one row per entry
of the full loaded result set (the active filter is ignored); the
original text and the reply are enclosed in double quotes with embedded
double quotes doubled, and the category is enclosed in double quotes
verbatim, without escaping. -/
def amendedExport (batchData : List ClassificationResult) : List Char :=
  joinNl (headerLine :: batchData.map
    (fun r =>
      '"' :: (escapeQuotes r.original_text ++
        ('"' :: ',' :: '"' :: (r.category ++
          ('"' :: ',' :: '"' :: (escapeQuotes r.reply ++ ['"'])))))))

/-- Modelled from the spec: the re-parsing half of the CSV round-trip
property of section 8 is not code of this repository, so it is the
standard reading of a double-quoted CSV field — inside the quotes a
doubled double quote stands for one double quote, and a single double
quote closes the field. Returns the decoded field and the text after
the closing quote (the opening quote is already consumed). -/
def parseQuotedField : List Char → Option (List Char × List Char)
  | [] => none
  | c :: rest =>
    if c = '"' then
      match rest with
      | [] => some ([], [])
      | c2 :: rest2 =>
        if c2 = '"' then
          match parseQuotedField rest2 with
          | none => none
          | some (f, r) => some ('"' :: f, r)
        else some ([], rest)
    else
      match parseQuotedField rest with
      | none => none
      | some (f, r) => some (c :: f, r)

/-- Modelled from the spec: consume one expected literal character. -/
def expectChar (c : Char) : List Char → Option (List Char)
  | [] => none
  | x :: rest => if x = c then some rest else none

/-- Modelled from the spec: one CSV record of the export shape — three
double-quoted fields separated by commas — decoded back into a
ClassificationResult, returning the unconsumed remainder. -/
def parseRecordLine (s : List Char) : Option (ClassificationResult × List Char) :=
  match expectChar '"' s with
  | none => none
  | some s1 =>
    match parseQuotedField s1 with
    | none => none
    | some (t, s2) =>
      match expectChar ',' s2 with
      | none => none
      | some s3 =>
        match expectChar '"' s3 with
        | none => none
        | some s4 =>
          match parseQuotedField s4 with
          | none => none
          | some (cat, s5) =>
            match expectChar ',' s5 with
            | none => none
            | some s6 =>
              match expectChar '"' s6 with
              | none => none
              | some s7 =>
                match parseQuotedField s7 with
                | none => none
                | some (rep, s8) =>
                  some (ClassificationResult.mk t cat rep, s8)

/-- Modelled from the spec: the newline-separated records of the export
body. The Nat argument is recursion fuel (at least the number of records
suffices). -/
def parseRecords : Nat → List Char → Option (List ClassificationResult)
  | _, [] => some []
  | 0, _ :: _ => none
  | Nat.succ fuel, c :: s =>
    match parseRecordLine (c :: s) with
    | none => none
    | some (r, rest) =>
      match rest with
      | [] => some [r]
      | c2 :: rest2 =>
        if c2 = '\n' then
          match parseRecords fuel rest2 with
          | none => none
          | some rs => some (r :: rs)
        else none

/-- Modelled from the spec: drop the header row (through the first
newline) of the exported text. -/
def dropHeaderLine : List Char → List Char
  | [] => []
  | c :: rest => if c = '\n' then rest else dropHeaderLine rest

/-- Modelled from the spec: re-parse an exported CSV text — skip the
header row, then decode the records. -/
def parseCsv (text : List Char) : Option (List ClassificationResult) :=
  parseRecords text.length (dropHeaderLine text)

/-- Claim C1 is false as stated: an empty or missing response body does
not signal a ClassificationFailure. With the service resolving but the
response body missing, processCommentWithGemini returns a successful
empty result (src/index.tsx line 149), which is not an error — even
when the JSON parser would reject everything. -/
theorem c1_counterexample :
    processCommentWithGemini (fun _ => Except.error ())
      (ServiceOutcome.ok none) = Except.ok [] ∧
    (Except.ok ([] : List ClassificationResult) ≠
      (Except.error () : Except Unit (List ClassificationResult))) :=
  ⟨rfl, fun h => Except.noConfusion h⟩

/-- Claim C1 amended: a network/service failure and a malformed
(unparseable) structured response each surface as a single
ClassificationFailure to the caller, with no retry and no
partial-result recovery; an empty or missing response body instead
yields a successful return of an empty result list. -/
theorem c1_amended
    (parseJson : List Char → Except Unit (List ClassificationResult))
    (t : List Char) :
    processCommentWithGemini parseJson ServiceOutcome.netFailure =
      Except.error () ∧
    processCommentWithGemini parseJson (ServiceOutcome.ok none) =
      Except.ok [] ∧
    processCommentWithGemini parseJson (ServiceOutcome.ok (some [])) =
      Except.ok [] ∧
    (t ≠ [] →
      processCommentWithGemini parseJson (ServiceOutcome.ok (some t)) =
        parseJson t) := by
  refine ⟨rfl, rfl, rfl, fun h => ?_⟩
  simp [processCommentWithGemini, isFalsyText, h]

/-- Witness for c1_amended at a concrete parser and body. -/
theorem c1_amended_witness :
    processCommentWithGemini (fun _ => Except.error ())
      (ServiceOutcome.ok (some ['x'])) =
      (Except.error () : Except Unit (List ClassificationResult)) :=
  (c1_amended (fun _ => Except.error ()) ['x']).2.2.2 (by simp)

/-- Claim C2: batch ingestion forwards exactly the first 200 candidate
lines left after blank-line and header removal — the remainder of a
longer input is dropped silently (the original list is the forwarded
part followed by the dropped tail), a longer input forwards exactly 200
lines, and an input of at most 200 candidate lines is forwarded in
full. handleFileUpload passes `limitedComments text` to the
classification call. -/
theorem c2_cap_at_200 (text : List Char) :
    limitedComments text = (uploadComments text).take 200 ∧
    uploadComments text =
      limitedComments text ++ (uploadComments text).drop 200 ∧
    ((uploadComments text).length ≤ 200 →
      limitedComments text = uploadComments text) ∧
    (200 < (uploadComments text).length →
      (limitedComments text).length = 200) := by
  refine ⟨rfl, (List.take_append_drop 200 (uploadComments text)).symm,
    fun h => ?_, fun h => ?_⟩
  · exact List.take_of_length_le h
  · simp [limitedComments, List.length_take]
    omega

/-- A concrete upload with 201 candidate lines. -/
def bigUpload : List Char := (List.replicate 201 ['a', '\n']).flatten

set_option maxRecDepth 4000 in
/-- Witness for c2_cap_at_200: a 2-line input is forwarded in full and a
201-line input is cut to exactly 200 lines. -/
theorem c2_cap_at_200_witness :
    limitedComments ("x\ny".toList) = uploadComments ("x\ny".toList) ∧
    (limitedComments bigUpload).length = 200 :=
  ⟨(c2_cap_at_200 ("x\ny".toList)).2.2.1 (by decide),
   (c2_cap_at_200 bigUpload).2.2.2 (by decide)⟩

/-- Claim C3: after splitting on line boundaries and dropping
whitespace-only lines, the first remaining line is discarded as a
header if and only if its case-insensitive content contains the token
"comment" or "text"; a batch whose first line contains neither token
has all its lines preserved. -/
theorem c3_header_iff (text : List Char) :
    (uploadLines text = [] → uploadComments text = []) ∧
    ∀ first rest, uploadLines text = first :: rest →
      ((hasSubstr commentToken (jsToLower first) ||
          hasSubstr headerTextToken (jsToLower first)) = true →
        uploadComments text = rest) ∧
      ((hasSubstr commentToken (jsToLower first) ||
          hasSubstr headerTextToken (jsToLower first)) = false →
        uploadComments text = first :: rest) := by
  constructor
  · intro h
    simp [uploadComments, h]
  · intro first rest h
    constructor
    · intro hc
      rw [Bool.or_eq_true] at hc
      unfold uploadComments
      rw [h, if_pos ⟨Nat.succ_pos _, by simpa using hc⟩]
      rfl
    · intro hc
      rw [Bool.or_eq_false_iff] at hc
      unfold uploadComments
      rw [h, if_neg]
      rintro ⟨-, hor⟩
      rcases hor with h1 | h2
      · rw [List.headD_cons] at h1
        exact absurd h1 (by simp [hc.1])
      · rw [List.headD_cons] at h2
        exact absurd h2 (by simp [hc.2])

/-- Witness for c3_header_iff: the spec's two examples — a "comment"
header line is dropped, and a batch with no header keeps both lines. -/
theorem c3_header_iff_witness :
    uploadComments ("comment\n\"Great job!\"".toList) =
      ["\"Great job!\"".toList] ∧
    uploadComments ("Great job!\nTerrible.".toList) =
      ["Great job!".toList, "Terrible.".toList] :=
  ⟨((c3_header_iff ("comment\n\"Great job!\"".toList)).2
      ("comment".toList) ["\"Great job!\"".toList] (by decide)).1 (by decide),
   ((c3_header_iff ("Great job!\nTerrible.".toList)).2
      ("Great job!".toList) ["Terrible.".toList] (by decide)).2 (by decide)⟩

/-- Claim C5: the category filter is the identity transform for the
sentinel selector "all", and for any other selector it returns exactly
the entries whose category is strictly equal to the selector — each
matching entry with its original multiplicity, non-matching entries not
at all. (The model is a pure function, matching the side-effect-free
useMemo computation of the source.) -/
theorem c5_filter_spec (data : List ClassificationResult) (sel : List Char) :
    filteredBatchData data strAll = data ∧
    (sel ≠ strAll →
      (∀ r ∈ filteredBatchData data sel, r.category = sel) ∧
      ∀ r : ClassificationResult,
        (filteredBatchData data sel).count r =
          if r.category = sel then data.count r else 0) := by
  refine ⟨by simp [filteredBatchData], fun hsel => ⟨?_, ?_⟩⟩
  · intro r hr
    rw [filteredBatchData, if_neg hsel] at hr
    simpa using (List.mem_filter.mp hr).2
  · intro r
    rw [filteredBatchData, if_neg hsel]
    by_cases hr : r.category = sel
    · rw [if_pos hr]
      exact List.count_filter (by simpa using hr)
    · rw [if_neg hr, List.count_eq_zero]
      intro hmem
      exact hr (by simpa using (List.mem_filter.mp hmem).2)

/-- Witness for c5_filter_spec at the spec's example selector
"hate_abuse" on a two-element result set. -/
theorem c5_filter_spec_witness :
    (filteredBatchData
        [ClassificationResult.mk ['a'] ("hate_abuse".toList) ['r'],
         ClassificationResult.mk ['b'] ("praise".toList) ['r']]
        ("hate_abuse".toList)).count
      (ClassificationResult.mk ['a'] ("hate_abuse".toList) ['r']) =
      if ("hate_abuse".toList : List Char) = "hate_abuse".toList then
        ([ClassificationResult.mk ['a'] ("hate_abuse".toList) ['r'],
          ClassificationResult.mk ['b'] ("praise".toList) ['r']]).count
          (ClassificationResult.mk ['a'] ("hate_abuse".toList) ['r'])
      else 0 :=
  ((c5_filter_spec
      [ClassificationResult.mk ['a'] ("hate_abuse".toList) ['r'],
       ClassificationResult.mk ['b'] ("praise".toList) ['r']]
      ("hate_abuse".toList)).2 (by decide)).2
    (ClassificationResult.mk ['a'] ("hate_abuse".toList) ['r'])

/-- Bumping one key does not change any other key's reading. -/
theorem lookupCount_bump_other (m : List (List Char × JsNum)) (k c : List Char)
    (hck : c ≠ k) : lookupCount (bump m k) c = lookupCount m c := by
  have hkc : ¬(k = c) := fun h => hck h.symm
  induction m with
  | nil =>
    by_cases hp : k = PROTO_KEY
    · simp [bump, hp]
    · by_cases ho : k ∈ OBJECT_PROTOTYPE_KEYS
      · simp [bump, hp, ho, lookupCount, hkc]
      · simp [bump, hp, ho, lookupCount, hkc]
  | cons p rest ih =>
    obtain ⟨key, v⟩ := p
    by_cases hk : key = k
    · rw [show bump ((key, v) :: rest) k = (key, jsIncr v) :: rest by
        simp [bump, hk]]
      have hknc : ¬(key = c) := fun h => hck (h.symm.trans hk)
      simp [lookupCount, hknc]
    · rw [show bump ((key, v) :: rest) k = (key, v) :: bump rest k by
        simp [bump, hk]]
      by_cases hc : key = c
      · simp [lookupCount, hc]
      · simp [lookupCount, hc, ih]

/-- Bumping a key that collides with no Object.prototype member
increments exactly that key's reading. -/
theorem lookupCount_bump_self (m : List (List Char × JsNum)) (k : List Char)
    (ho : k ∉ OBJECT_PROTOTYPE_KEYS) (hp : k ≠ PROTO_KEY) :
    lookupCount (bump m k) k = jsIncr (lookupCount m k) := by
  induction m with
  | nil =>
    rw [show bump [] k = [(k, JsNum.num 1)] by simp [bump, hp, ho]]
    show (if k = k then JsNum.num 1 else lookupCount [] k) =
      jsIncr (JsNum.num 0)
    rw [if_pos rfl]
    rfl
  | cons p rest ih =>
    obtain ⟨key, v⟩ := p
    by_cases hk : key = k
    · rw [show bump ((key, v) :: rest) k = (key, jsIncr v) :: rest by
        simp [bump, hk]]
      simp [lookupCount, hk]
    · rw [show bump ((key, v) :: rest) k = (key, v) :: bump rest k by
        simp [bump, hk]]
      simp [lookupCount, hk, ih]

/-- Every registered key starts at zero (an absent key also reads 0). -/
theorem lookupCount_init (c : List Char) :
    lookupCount initCounts c = JsNum.num 0 := by
  have h : ∀ l : List (List Char),
      lookupCount (l.map fun x => (x, JsNum.num 0)) c = JsNum.num 0 := by
    intro l
    induction l with
    | nil => rfl
    | cons x xs ih =>
      simp only [List.map_cons, lookupCount]
      by_cases hx : x = c
      · simp [hx]
      · simp [hx, ih]
  exact h CATEGORIES

/-- The keys present after a bump: a new key appears only when it is
the bumped key and that key is not "__proto__". -/
theorem mem_fst_bump (m : List (List Char × JsNum)) (k c : List Char) :
    c ∈ (bump m k).map Prod.fst ↔
      c ∈ m.map Prod.fst ∨ (c = k ∧ k ≠ PROTO_KEY) := by
  induction m with
  | nil =>
    by_cases hp : k = PROTO_KEY
    · simp [bump, hp]
    · by_cases ho : k ∈ OBJECT_PROTOTYPE_KEYS
      · simp [bump, hp, ho]
      · simp [bump, hp, ho]
  | cons p rest ih =>
    obtain ⟨key, v⟩ := p
    by_cases hk : key = k
    · rw [show bump ((key, v) :: rest) k = (key, jsIncr v) :: rest by
        simp [bump, hk]]
      subst hk
      simp only [List.map_cons, List.mem_cons]
      constructor
      · exact fun h => Or.inl h
      · rintro (h | ⟨rfl, -⟩)
        · exact h
        · exact Or.inl rfl
    · rw [show bump ((key, v) :: rest) k = (key, v) :: bump rest k by
        simp [bump, hk]]
      simp only [List.map_cons, List.mem_cons, ih]
      tauto

/-- Bumping preserves distinctness of the keys. -/
theorem nodup_fst_bump (m : List (List Char × JsNum)) (k : List Char)
    (h : (m.map Prod.fst).Nodup) : ((bump m k).map Prod.fst).Nodup := by
  induction m with
  | nil =>
    by_cases hp : k = PROTO_KEY
    · simp [bump, hp]
    · by_cases ho : k ∈ OBJECT_PROTOTYPE_KEYS
      · simp [bump, hp, ho]
      · simp [bump, hp, ho]
  | cons p rest ih =>
    obtain ⟨key, v⟩ := p
    rw [List.map_cons, List.nodup_cons] at h
    by_cases hk : key = k
    · rw [show bump ((key, v) :: rest) k = (key, jsIncr v) :: rest by
        simp [bump, hk]]
      rw [List.map_cons, List.nodup_cons]
      exact h
    · rw [show bump ((key, v) :: rest) k = (key, v) :: bump rest k by
        simp [bump, hk]]
      rw [List.map_cons, List.nodup_cons]
      refine ⟨?_, ih h.2⟩
      rw [mem_fst_bump]
      rintro (hmem | ⟨rfl, -⟩)
      · exact h.1 hmem
      · exact hk rfl

/-- A present key is paired with its reading. -/
theorem lookup_pair_mem (m : List (List Char × JsNum)) (c : List Char)
    (h : c ∈ m.map Prod.fst) : (c, lookupCount m c) ∈ m := by
  induction m with
  | nil => simp at h
  | cons p rest ih =>
    obtain ⟨key, v⟩ := p
    by_cases hc : key = c
    · subst hc
      simp [lookupCount]
    · simp only [List.map_cons, List.mem_cons] at h
      rcases h with rfl | h
      · exact absurd rfl hc
      · simp only [lookupCount, if_neg hc]
        exact List.mem_cons_of_mem _ (ih h)

/-- With distinct keys, a pair of the record is the key's reading. -/
theorem lookup_eq_of_pair_mem (m : List (List Char × JsNum)) (c : List Char)
    (v : JsNum) (hnd : (m.map Prod.fst).Nodup) (h : (c, v) ∈ m) :
    lookupCount m c = v := by
  induction m with
  | nil => simp at h
  | cons p rest ih =>
    obtain ⟨key, w⟩ := p
    rw [List.map_cons, List.nodup_cons] at hnd
    rcases List.mem_cons.mp h with heq | hmem
    · injection heq with h1 h2
      subst h1
      subst h2
      simp [lookupCount]
    · have hc : key ≠ c := by
        rintro rfl
        exact hnd.1 (List.mem_map.mpr ⟨(key, v), hmem, rfl⟩)
      simp only [lookupCount, if_neg hc]
      exact ih hnd.2 hmem

/-- A key reading a positive integer is present. -/
theorem mem_fst_of_lookup_num_pos (m : List (List Char × JsNum))
    (c : List Char) (n : Nat) (hl : lookupCount m c = JsNum.num n)
    (hn : 0 < n) : c ∈ m.map Prod.fst := by
  induction m with
  | nil =>
    simp only [lookupCount] at hl
    injection hl with h0
    omega
  | cons p rest ih =>
    obtain ⟨key, v⟩ := p
    by_cases hc : key = c
    · rw [List.map_cons]
      exact List.mem_cons.mpr (Or.inl hc.symm)
    · simp only [lookupCount, if_neg hc] at hl
      simp only [List.map_cons, List.mem_cons]
      exact Or.inr (ih hl)

/-- The invariant the counts object maintains: distinct own keys,
never an own "__proto__" key, and an own key holds NaN exactly when it
names an Object.prototype data member. -/
def WF (m : List (List Char × JsNum)) : Prop :=
  (m.map Prod.fst).Nodup ∧
  PROTO_KEY ∉ m.map Prod.fst ∧
  ∀ p ∈ m, (p.1 ∈ OBJECT_PROTOTYPE_KEYS ↔ p.2 = JsNum.nan)

/-- The invariant passes to the tail of the record. -/
theorem WF_tail (q : List Char × JsNum) (rest : List (List Char × JsNum))
    (h : WF (q :: rest)) : WF rest := by
  obtain ⟨hnd, hpr, hval⟩ := h
  rw [List.map_cons, List.nodup_cons] at hnd
  refine ⟨hnd.2, ?_, fun p hp => hval p (List.mem_cons_of_mem _ hp)⟩
  intro hm
  apply hpr
  rw [List.map_cons, List.mem_cons]
  exact Or.inr hm

/-- Bumping preserves the NaN-exactly-at-prototype-members property. -/
theorem val_bump (k : List Char) :
    ∀ m : List (List Char × JsNum),
      (∀ p ∈ m, (p.1 ∈ OBJECT_PROTOTYPE_KEYS ↔ p.2 = JsNum.nan)) →
      ∀ p ∈ bump m k, (p.1 ∈ OBJECT_PROTOTYPE_KEYS ↔ p.2 = JsNum.nan) := by
  intro m
  induction m with
  | nil =>
    intro _ p hp
    by_cases hpk : k = PROTO_KEY
    · simp [bump, hpk] at hp
    · by_cases ho : k ∈ OBJECT_PROTOTYPE_KEYS
      · simp only [bump, if_neg hpk, if_pos ho, List.mem_singleton] at hp
        subst hp
        simp [ho]
      · simp only [bump, if_neg hpk, if_neg ho, List.mem_singleton] at hp
        subst hp
        simp [ho]
  | cons q rest ih =>
    obtain ⟨key, v⟩ := q
    intro hval p hp
    have hval_head := hval (key, v) (List.mem_cons_self _ _)
    have hval_rest : ∀ p ∈ rest, (p.1 ∈ OBJECT_PROTOTYPE_KEYS ↔
        p.2 = JsNum.nan) := fun p hp => hval p (List.mem_cons_of_mem _ hp)
    by_cases hk : key = k
    · rw [show bump ((key, v) :: rest) k = (key, jsIncr v) :: rest by
        simp [bump, hk]] at hp
      rcases List.mem_cons.mp hp with rfl | hmem
      · show key ∈ OBJECT_PROTOTYPE_KEYS ↔ jsIncr v = JsNum.nan
        have hv : key ∈ OBJECT_PROTOTYPE_KEYS ↔ v = JsNum.nan := hval_head
        constructor
        · intro ho
          rw [hv.mp ho]
          rfl
        · intro hn
          apply hv.mpr
          cases v with
          | num n => exact absurd hn (by simp [jsIncr])
          | nan => rfl
      · exact hval_rest p hmem
    · rw [show bump ((key, v) :: rest) k = (key, v) :: bump rest k by
        simp [bump, hk]] at hp
      rcases List.mem_cons.mp hp with rfl | hmem
      · exact hval_head
      · exact ih hval_rest p hmem

/-- Bumping preserves the counts-object invariant. -/
theorem WF_bump (m : List (List Char × JsNum)) (k : List Char)
    (h : WF m) : WF (bump m k) := by
  refine ⟨nodup_fst_bump m k h.1, ?_, val_bump k m h.2.2⟩
  intro hmem
  rcases (mem_fst_bump m k PROTO_KEY).mp hmem with hm | ⟨heq, hne⟩
  · exact h.2.1 hm
  · exact hne heq.symm

/-- The counts record satisfies the invariant throughout the loop. -/
theorem WF_countsAfter (data : List ClassificationResult) :
    WF (countsAfter data) := by
  have hgen : ∀ (l : List ClassificationResult) (m : List (List Char × JsNum)),
      WF m → WF (l.foldl (fun acc item => bump acc item.category) m) := by
    intro l
    induction l with
    | nil => exact fun m hm => hm
    | cons r rest ih => exact fun m hm => ih _ (WF_bump m r.category hm)
  exact hgen data initCounts ⟨by decide, by decide, by decide⟩

/-- For a key that collides with no Object.prototype member, the loop
adds the number of results carrying that key to the key's reading. -/
theorem lookup_foldl_noncolliding :
    ∀ (data : List ClassificationResult) (m : List (List Char × JsNum))
      (c : List Char) (a : Nat),
      c ∉ OBJECT_PROTOTYPE_KEYS → c ≠ PROTO_KEY →
      lookupCount m c = JsNum.num a →
      lookupCount (data.foldl (fun acc item => bump acc item.category) m) c =
        JsNum.num (a + data.countP (fun r => decide (r.category = c))) := by
  intro data
  induction data with
  | nil =>
    intro m c a _ _ hm
    simpa using hm
  | cons r rest ih =>
    intro m c a ho hp hm
    rw [List.foldl_cons, List.countP_cons]
    by_cases hr : r.category = c
    · have hb : lookupCount (bump m r.category) c = JsNum.num (a + 1) := by
        rw [hr, lookupCount_bump_self m c ho hp, hm]
        rfl
      rw [ih _ c (a + 1) ho hp hb]
      have hone : (decide (r.category = c)) = true := decide_eq_true hr
      simp only [hone, if_true, JsNum.num.injEq]
      omega
    · have hb : lookupCount (bump m r.category) c = JsNum.num a := by
        rw [lookupCount_bump_other m r.category c fun h => hr h.symm, hm]
      rw [ih _ c a ho hp hb]
      have hzero : (decide (r.category = c)) = false := decide_eq_false hr
      simp only [hzero, Bool.false_eq_true, if_false, JsNum.num.injEq]
      omega

/-- Insertion into the descending order is a permutation. -/
theorem insertDesc_perm (x : CategoryCount) (l : List CategoryCount) :
    (insertDesc x l).Perm (x :: l) := by
  induction l with
  | nil => exact List.Perm.refl _
  | cons y ys ih =>
    simp only [insertDesc]
    by_cases h : y.count < x.count
    · rw [if_pos h]
    · rw [if_neg h]
      exact (ih.cons y).trans (List.Perm.swap x y ys)

/-- The descending sort is a permutation. -/
theorem sortDesc_perm (l : List CategoryCount) : (sortDesc l).Perm l := by
  induction l with
  | nil => exact List.Perm.refl _
  | cons x xs ih =>
    exact (insertDesc_perm x (sortDesc xs)).trans (ih.cons x)

/-- Insertion preserves the descending order. -/
theorem pairwise_insertDesc (x : CategoryCount) (l : List CategoryCount)
    (h : l.Pairwise (fun a b => b.count ≤ a.count)) :
    (insertDesc x l).Pairwise (fun a b => b.count ≤ a.count) := by
  induction l with
  | nil => simp [insertDesc]
  | cons y ys ih =>
    rw [List.pairwise_cons] at h
    obtain ⟨hy, hys⟩ := h
    simp only [insertDesc]
    by_cases hlt : y.count < x.count
    · rw [if_pos hlt, List.pairwise_cons]
      constructor
      · intro z hz
        rcases List.mem_cons.mp hz with rfl | hz
        · exact Nat.le_of_lt hlt
        · exact le_trans (hy z hz) (Nat.le_of_lt hlt)
      · exact List.pairwise_cons.mpr ⟨hy, hys⟩
    · rw [if_neg hlt, List.pairwise_cons]
      refine ⟨fun z hz => ?_, ih hys⟩
      rcases List.mem_cons.mp ((insertDesc_perm x ys).mem_iff.mp hz) with rfl | hz2
      · exact Nat.le_of_not_lt hlt
      · exact hy z hz2

/-- The sorted stats list is in descending order of count. -/
theorem pairwise_sortDesc (l : List CategoryCount) :
    (sortDesc l).Pairwise (fun a b => b.count ≤ a.count) := by
  induction l with
  | nil => simp [sortDesc]
  | cons x xs ih => exact pairwise_insertDesc x (sortDesc xs) ih

/-- Claim C4 is false as stated: a result whose category is the
unregistered value "toString" does not increment a counter keyed by
that literal value in the output — the presence test of line 311 passes
against the Object.prototype member, the increment stores NaN, and the
positivity filter of line 318 drops the entry, so the result is dropped
and the aggregation output is empty. -/
theorem c4_counterexample :
    CategoryCount.mk ("toString".toList) 1 ∉
      calculateStats [ClassificationResult.mk ['a'] ("toString".toList) ['r']] ∧
    calculateStats [ClassificationResult.mk ['a'] ("toString".toList) ['r']] =
      [] := by
  decide

/-- Claim C4 amended: aggregation starts every one of the 8 registered
categories at zero; after the loop, every key that does not name an
Object.prototype member — registered or not — reads exactly the number
of results carrying it (an ordinary unregistered category is counted
under its literal value); a result whose category names an
Object.prototype member is instead dropped: its counter becomes NaN
(or, for "__proto__", is never stored), so the output contains exactly
the categories — necessarily non-colliding ones — whose occurrence
count is nonzero, ordered by descending count. -/
theorem c4_amended_aggregate (data : List ClassificationResult) :
    CATEGORIES.length = 8 ∧
    (∀ c ∈ CATEGORIES, lookupCount initCounts c = JsNum.num 0) ∧
    (∀ c : List Char, c ∉ OBJECT_PROTOTYPE_KEYS → c ≠ PROTO_KEY →
      lookupCount (countsAfter data) c =
        JsNum.num (data.countP (fun r => decide (r.category = c)))) ∧
    (∀ cc : CategoryCount, cc ∈ calculateStats data ↔
      (0 < cc.count ∧ cc.category ∉ OBJECT_PROTOTYPE_KEYS ∧
        cc.category ≠ PROTO_KEY ∧
        cc.count = data.countP (fun r => decide (r.category = cc.category)))) ∧
    (calculateStats data).Pairwise (fun a b => b.count ≤ a.count) := by
  obtain ⟨hnd, hpr, hval⟩ := WF_countsAfter data
  have hlook : ∀ c : List Char, c ∉ OBJECT_PROTOTYPE_KEYS → c ≠ PROTO_KEY →
      lookupCount (countsAfter data) c =
        JsNum.num (data.countP (fun r => decide (r.category = c))) := by
    intro c ho hp
    have h := lookup_foldl_noncolliding data initCounts c 0 ho hp
      (lookupCount_init c)
    simpa using h
  refine ⟨rfl, fun c _ => lookupCount_init c, hlook, ?_, pairwise_sortDesc _⟩
  intro cc
  rw [calculateStats, (sortDesc_perm _).mem_iff, List.mem_map]
  cases cc with
  | mk cat cnt =>
    constructor
    · rintro ⟨p, hpfil, hpe⟩
      rw [List.mem_filter] at hpfil
      obtain ⟨hpm, hppos⟩ := hpfil
      obtain ⟨p1, p2⟩ := p
      cases p2 with
      | nan => exact absurd hppos (by simp [jsPos])
      | num n =>
        have hn : 0 < n := by simpa [jsPos] using hppos
        injection hpe with h1 h2
        have h2n : n = cnt := h2
        have hnotop : p1 ∉ OBJECT_PROTOTYPE_KEYS := by
          intro hop
          exact JsNum.noConfusion ((hval (p1, JsNum.num n) hpm).mp hop)
        have hnotproto : p1 ≠ PROTO_KEY := by
          rintro rfl
          exact hpr (List.mem_map.mpr ⟨(PROTO_KEY, JsNum.num n), hpm, rfl⟩)
        have hl : lookupCount (countsAfter data) p1 = JsNum.num n :=
          lookup_eq_of_pair_mem _ p1 (JsNum.num n) hnd hpm
        have hcp := hlook p1 hnotop hnotproto
        rw [hl] at hcp
        injection hcp with hcpn
        have h1c : p1 = cat := h1
        subst h1c
        subst h2n
        exact ⟨hn, hnotop, hnotproto, hcpn⟩
    · rintro ⟨hpos, ho, hp, hcnt⟩
      have hl : lookupCount (countsAfter data) cat = JsNum.num cnt := by
        rw [hlook cat ho hp, ← hcnt]
      have hkey : cat ∈ (countsAfter data).map Prod.fst :=
        mem_fst_of_lookup_num_pos _ cat cnt hl hpos
      have hpair := lookup_pair_mem _ cat hkey
      rw [hl] at hpair
      refine ⟨(cat, JsNum.num cnt), ?_, rfl⟩
      rw [List.mem_filter]
      exact ⟨hpair, by simp [jsPos, hpos]⟩

/-- The spec's aggregation example: two praise results and one threat. -/
def aggExample : List ClassificationResult :=
  [ ClassificationResult.mk ['a'] ("praise".toList) ['r'],
    ClassificationResult.mk ['b'] ("praise".toList) ['r'],
    ClassificationResult.mk ['c'] ("threat".toList) ['r'] ]

/-- Witness for c4_amended_aggregate at the spec's example: praise
reads 0 initially, and the output of aggregating two praise results
and one threat contains the praise entry with count 2. -/
theorem c4_amended_aggregate_witness :
    lookupCount initCounts ("praise".toList) = JsNum.num 0 ∧
    (CategoryCount.mk ("praise".toList) 2 ∈ calculateStats aggExample) :=
  ⟨(c4_amended_aggregate aggExample).2.1 ("praise".toList) (by decide),
   ((c4_amended_aggregate aggExample).2.2.2.1
      (CategoryCount.mk ("praise".toList) 2)).mpr (by decide)⟩

/-- Bumping adds one to the stored total exactly when the key collides
with no Object.prototype member; a colliding key only creates or keeps
a NaN entry, worth nothing. -/
theorem sumVals_bump (m : List (List Char × JsNum)) (k : List Char)
    (h : WF m) :
    ((bump m k).map (fun p => jsToNat p.2)).sum =
      (m.map (fun p => jsToNat p.2)).sum +
      (if k ∉ OBJECT_PROTOTYPE_KEYS ∧ k ≠ PROTO_KEY then 1 else 0) := by
  induction m with
  | nil =>
    by_cases hp : k = PROTO_KEY
    · rw [show bump [] k = [] by simp [bump, hp],
        if_neg fun hcond => hcond.2 hp]
      rfl
    · by_cases ho : k ∈ OBJECT_PROTOTYPE_KEYS
      · rw [show bump [] k = [(k, JsNum.nan)] by simp [bump, hp, ho],
          if_neg fun hcond => hcond.1 ho]
        rfl
      · rw [show bump [] k = [(k, JsNum.num 1)] by simp [bump, hp, ho],
          if_pos ⟨ho, hp⟩]
        rfl
  | cons q rest ih =>
    obtain ⟨key, v⟩ := q
    by_cases hk : key = k
    · rw [show bump ((key, v) :: rest) k = (key, jsIncr v) :: rest by
        simp [bump, hk]]
      simp only [List.map_cons, List.sum_cons]
      by_cases ho : k ∈ OBJECT_PROTOTYPE_KEYS
      · have hko : key ∈ OBJECT_PROTOTYPE_KEYS := by rw [hk]; exact ho
        have hv : v = JsNum.nan :=
          (h.2.2 (key, v) (List.mem_cons_self _ _)).mp hko
        rw [hv, if_neg fun hcond => hcond.1 ho]
        rfl
      · have hv : v ≠ JsNum.nan := by
          intro hn
          have hko : key ∈ OBJECT_PROTOTYPE_KEYS :=
            (h.2.2 (key, v) (List.mem_cons_self _ _)).mpr hn
          exact ho (hk ▸ hko)
        have hkp : k ≠ PROTO_KEY := by
          rintro rfl
          apply h.2.1
          rw [List.map_cons]
          exact List.mem_cons.mpr (Or.inl hk.symm)
        cases v with
        | nan => exact absurd rfl hv
        | num n =>
          rw [if_pos ⟨ho, hkp⟩]
          simp only [jsIncr, jsToNat]
          omega
    · rw [show bump ((key, v) :: rest) k = (key, v) :: bump rest k by
        simp [bump, hk]]
      simp only [List.map_cons, List.sum_cons, ih (WF_tail (key, v) rest h)]
      omega

/-- The loop adds to the stored total the number of results whose
category collides with no Object.prototype member. -/
theorem sumVals_foldl :
    ∀ (l : List ClassificationResult) (m : List (List Char × JsNum)), WF m →
      ((l.foldl (fun acc item => bump acc item.category) m).map
          (fun p => jsToNat p.2)).sum =
        (m.map (fun p => jsToNat p.2)).sum +
        l.countP (fun r => decide (r.category ∉ OBJECT_PROTOTYPE_KEYS ∧
          r.category ≠ PROTO_KEY)) := by
  intro l
  induction l with
  | nil =>
    intro m _
    simp
  | cons r rest ih =>
    intro m hm
    rw [List.foldl_cons, ih _ (WF_bump m r.category hm),
      sumVals_bump m r.category hm, List.countP_cons]
    by_cases h : r.category ∉ OBJECT_PROTOTYPE_KEYS ∧ r.category ≠ PROTO_KEY
    · have hd : (decide (r.category ∉ OBJECT_PROTOTYPE_KEYS ∧
          r.category ≠ PROTO_KEY)) = true := decide_eq_true h
      rw [if_pos h]
      simp only [hd, if_true]
      omega
    · have hd : (decide (r.category ∉ OBJECT_PROTOTYPE_KEYS ∧
          r.category ≠ PROTO_KEY)) = false := decide_eq_false h
      rw [if_neg h]
      simp only [hd, Bool.false_eq_true, if_false]
      omega

/-- Dropping the non-positive entries does not change the stored
total: they are worth 0 (a NaN or a zero count). -/
theorem sum_filter_jsPos (m : List (List Char × JsNum)) :
    (((m.filter (fun p => jsPos p.2)).map (fun p => jsToNat p.2)).sum) =
      ((m.map (fun p => jsToNat p.2)).sum) := by
  induction m with
  | nil => rfl
  | cons p rest ih =>
    by_cases h : jsPos p.2 = true
    · simp [List.filter_cons, h, ih]
    · have h0 : jsToNat p.2 = 0 := by
        revert h
        cases p.2 with
        | num n =>
          intro h
          simp only [jsPos, decide_eq_true_eq] at h
          simp only [jsToNat]
          omega
        | nan => intro _; rfl
      simp [List.filter_cons, h, ih, h0]

/-- Claim C10 is false as stated: one result with the unregistered
category "toString" is dropped by the aggregation (its counter is NaN,
filtered out), so the output counts sum to 0 while the input has
length 1. -/
theorem c10_counterexample :
    ((calculateStats
        [ClassificationResult.mk ['a'] ("toString".toList) ['r']]).map
      CategoryCount.count).sum ≠
      ([ClassificationResult.mk ['a'] ("toString".toList) ['r']] :
        List ClassificationResult).length := by
  decide

/-- Claim C10 amended: the counts in the aggregation output sum to the
number of input results whose category value does not name an
Object.prototype member ("__proto__" included) — each such result is
counted exactly once, while a colliding result is dropped. In
particular the sum equals the input length whenever no category
collides with an Object.prototype member name. -/
theorem c10_amended_total (data : List ClassificationResult) :
    ((calculateStats data).map CategoryCount.count).sum =
      data.countP (fun r => decide (r.category ∉ OBJECT_PROTOTYPE_KEYS ∧
        r.category ≠ PROTO_KEY)) ∧
    ((∀ r ∈ data, r.category ∉ OBJECT_PROTOTYPE_KEYS ∧
        r.category ≠ PROTO_KEY) →
      ((calculateStats data).map CategoryCount.count).sum = data.length) := by
  have hmain : ((calculateStats data).map CategoryCount.count).sum =
      data.countP (fun r => decide (r.category ∉ OBJECT_PROTOTYPE_KEYS ∧
        r.category ≠ PROTO_KEY)) := by
    have hperm : ((calculateStats data).map CategoryCount.count).sum =
        ((((countsAfter data).filter (fun p => jsPos p.2)).map
          (fun p => CategoryCount.mk p.1 (jsToNat p.2))).map
            CategoryCount.count).sum :=
      ((sortDesc_perm _).map CategoryCount.count).sum_eq
    have hmm : ((((countsAfter data).filter (fun p => jsPos p.2)).map
          (fun p => CategoryCount.mk p.1 (jsToNat p.2))).map
            CategoryCount.count) =
        (((countsAfter data).filter (fun p => jsPos p.2)).map
          (fun p => jsToNat p.2)) := by
      rw [List.map_map]
      rfl
    have h0 : (initCounts.map (fun p => jsToNat p.2)).sum = 0 := by decide
    rw [hperm, hmm, sum_filter_jsPos, countsAfter,
      sumVals_foldl data initCounts ⟨by decide, by decide, by decide⟩, h0,
      Nat.zero_add]
  refine ⟨hmain, fun hall => ?_⟩
  rw [hmain, List.countP_eq_length.mpr fun r hr => decide_eq_true (hall r hr)]

/-- Witness for c10_amended_total: the spec's example has no colliding
category, so its output counts sum to the input length 3. -/
theorem c10_amended_total_witness :
    ((calculateStats aggExample).map CategoryCount.count).sum =
      aggExample.length :=
  (c10_amended_total aggExample).2 (by decide)

/-- Claim C8: for every prior state, a classification failure during a
batch submission (file upload or sample load) leaves the loaded result
set and the stats unchanged, raises exactly one alert, and clears the
busy flag; a success also clears the busy flag and raises no alert. -/
theorem c8_failure_atomic
    (classify : List (List Char) → Except Unit (List ClassificationResult))
    (text : List Char) (s : BatchState) :
    (classify (limitedComments text) = Except.error () →
      (handleFileUpload classify text s).1.batchData = s.batchData ∧
      (handleFileUpload classify text s).1.stats = s.stats ∧
      (handleFileUpload classify text s).1.batchLoading = false ∧
      (handleFileUpload classify text s).2 = 1) ∧
    (∀ results, classify (limitedComments text) = Except.ok results →
      (handleFileUpload classify text s).1.batchLoading = false ∧
      (handleFileUpload classify text s).2 = 0) ∧
    (classify SAMPLE_COMMENTS = Except.error () →
      (handleBatchLoadSample classify s).1.batchData = s.batchData ∧
      (handleBatchLoadSample classify s).1.stats = s.stats ∧
      (handleBatchLoadSample classify s).1.batchLoading = false ∧
      (handleBatchLoadSample classify s).2 = 1) ∧
    (∀ results, classify SAMPLE_COMMENTS = Except.ok results →
      (handleBatchLoadSample classify s).1.batchLoading = false ∧
      (handleBatchLoadSample classify s).2 = 0) := by
  refine ⟨fun h => ?_, fun results h => ?_, fun h => ?_, fun results h => ?_⟩ <;>
    simp [handleFileUpload, handleBatchLoadSample, h]

/-- Witness for c8_failure_atomic: a failing classification call on a
concrete nonempty prior state keeps its data and stats, alerts once and
clears the busy flag. -/
theorem c8_failure_atomic_witness :
    (handleFileUpload (fun _ => Except.error ()) ("x".toList)
        (BatchState.mk [ClassificationResult.mk ['a'] ['b'] ['c']]
          [CategoryCount.mk ['b'] 1] false strAll)).1.batchData =
      [ClassificationResult.mk ['a'] ['b'] ['c']] ∧
    (handleFileUpload (fun _ => Except.error ()) ("x".toList)
        (BatchState.mk [ClassificationResult.mk ['a'] ['b'] ['c']]
          [CategoryCount.mk ['b'] 1] false strAll)).1.stats =
      [CategoryCount.mk ['b'] 1] ∧
    (handleFileUpload (fun _ => Except.error ()) ("x".toList)
        (BatchState.mk [ClassificationResult.mk ['a'] ['b'] ['c']]
          [CategoryCount.mk ['b'] 1] false strAll)).1.batchLoading = false ∧
    (handleFileUpload (fun _ => Except.error ()) ("x".toList)
        (BatchState.mk [ClassificationResult.mk ['a'] ['b'] ['c']]
          [CategoryCount.mk ['b'] 1] false strAll)).2 = 1 :=
  (c8_failure_atomic (fun _ => Except.error ()) ("x".toList)
    (BatchState.mk [ClassificationResult.mk ['a'] ['b'] ['c']]
      [CategoryCount.mk ['b'] 1] false strAll)).1 rfl

/-- Claim C9: a single-comment input that is empty or whitespace-only
makes the analyze handler a no-op — the state (result and busy flag) is
returned unchanged, no alert fires and classification is never invoked
(the third component, the invocation count, is zero). -/
theorem c9_empty_single_noop
    (classify : List (List Char) → Except Unit (List ClassificationResult))
    (input : List Char) (s : SingleState)
    (h : input = [] ∨ ∀ c ∈ input, isJsWhitespace c = true) :
    handleSingleAnalyze classify input s = (s, 0, 0) := by
  have hdrop : input.dropWhile isJsWhitespace = [] := by
    rcases h with rfl | hall
    · rfl
    · exact List.dropWhile_eq_nil_iff.mpr hall
  have htrim : (jsTrim input).isEmpty = true := by
    simp [jsTrim, hdrop]
  rw [handleSingleAnalyze, if_pos htrim]

/-- Witness for c9_empty_single_noop at a concrete whitespace-only
input and state. -/
theorem c9_empty_single_noop_witness :
    handleSingleAnalyze (fun _ => Except.error ()) [' ', '\t']
      (SingleState.mk none false) = (SingleState.mk none false, 0, 0) :=
  c9_empty_single_noop (fun _ => Except.error ()) [' ', '\t']
    (SingleState.mk none false) (Or.inr (by decide))

/-- A loaded result set whose first entry's category contains a double
quote, second entry categorized "praise". -/
def c6Data : List ClassificationResult :=
  [ ClassificationResult.mk ['a'] ['x', '"', 'y'] ['b'],
    ClassificationResult.mk ['c'] ("praise".toList) ['d'] ]

/-- Claim C6 is false as stated: with the filter set to "praise" (one
matching row) the export still contains both loaded rows — it reads
batchData, not filteredBatchData — and the first row's category field
is emitted verbatim, its embedded double quote not doubled. So the
actual export differs from the claimed one. -/
theorem c6_counterexample :
    handleDownloadCSV c6Data ≠ some (claimedExport c6Data ("praise".toList)) := by
  decide

/-- Claim C6 amended: the CSV export produces the header row
`Original Comment,Category,Reply Suggestion` followed by one row per
loaded result — the full result set, regardless of the active filter —
in which the original text and reply fields are enclosed in double
quotes with embedded double quotes doubled, while the category field is
enclosed in double quotes verbatim (embedded double quotes are not
doubled); an empty result set produces no export. -/
theorem c6_amended_export (data : List ClassificationResult) :
    (data = [] → handleDownloadCSV data = none) ∧
    (data ≠ [] → handleDownloadCSV data = some (amendedExport data)) := by
  constructor
  · rintro rfl
    rfl
  · intro h
    rw [handleDownloadCSV,
      if_neg (fun hl => h (List.length_eq_zero.mp hl))]
    rfl

/-- Witness for c6_amended_export at a concrete one-row result set. -/
theorem c6_amended_export_witness :
    handleDownloadCSV [ClassificationResult.mk ['a'] ['p'] ['b']] =
      some (amendedExport [ClassificationResult.mk ['a'] ['p'] ['b']]) :=
  (c6_amended_export [ClassificationResult.mk ['a'] ['p'] ['b']]).2
    (by decide)

/-- Consuming an expected character off the front. -/
theorem expectChar_cons_self (c : Char) (l : List Char) :
    expectChar c (c :: l) = some l := by
  simp [expectChar]

/-- Quote-doubling is the identity on quote-free text. -/
theorem escapeQuotes_of_no_quote (s : List Char) (h : ('"' : Char) ∉ s) :
    escapeQuotes s = s := by
  induction s with
  | nil => rfl
  | cons c rest ih =>
    rw [List.mem_cons, not_or] at h
    have hc : ¬(c = '"') := fun hh => h.1 hh.symm
    simp only [escapeQuotes, List.flatMap_cons, if_neg hc] at *
    rw [ih h.2]
    rfl

/-- Unfolding the field parser past an ordinary character. -/
theorem parseQuotedField_cons (c : Char) (rest : List Char) (hc : ¬(c = '"')) :
    parseQuotedField (c :: rest) =
      match parseQuotedField rest with
      | none => none
      | some (f, r) => some (c :: f, r) := by
  conv_lhs => rw [parseQuotedField.eq_def]
  simp only [if_neg hc]

/-- The field parser inverts quote-doubling: a doubled field followed by
its closing quote parses back to the original text, provided what
follows the closing quote does not begin with another quote. -/
theorem parseQuotedField_escape (s rest : List Char)
    (hrest : rest.head? ≠ some '"') :
    parseQuotedField (escapeQuotes s ++ '"' :: rest) = some (s, rest) := by
  induction s with
  | nil =>
    cases rest with
    | nil => rfl
    | cons c rest2 =>
      have hc : ¬(c = '"') := fun hh => hrest (by rw [hh]; rfl)
      show parseQuotedField ('"' :: c :: rest2) = some ([], c :: rest2)
      simp [parseQuotedField, hc]
  | cons a s ih =>
    by_cases ha : a = '"'
    · subst ha
      have he : escapeQuotes ('"' :: s) = '"' :: '"' :: escapeQuotes s := by
        simp [escapeQuotes]
      rw [he]
      simp [parseQuotedField, ih]
    · have he : escapeQuotes (a :: s) = a :: escapeQuotes s := by
        simp [escapeQuotes, ha]
      rw [he, List.cons_append, parseQuotedField_cons a _ ha, ih]

/-- A quote-free field needs no doubling to parse back. -/
theorem parseQuotedField_raw (s rest : List Char) (hs : ('"' : Char) ∉ s)
    (hrest : rest.head? ≠ some '"') :
    parseQuotedField (s ++ '"' :: rest) = some (s, rest) := by
  have h := parseQuotedField_escape s rest hrest
  rwa [escapeQuotes_of_no_quote s hs] at h

/-- One exported row parses back to its record exactly, for any
trailing text not starting with a quote, provided the category is
quote-free. -/
theorem parseRecordLine_csvRow (r : ClassificationResult) (tail : List Char)
    (hcat : ('"' : Char) ∉ r.category) (htail : tail.head? ≠ some '"') :
    parseRecordLine (csvRow r ++ tail) = some (r, tail) := by
  obtain ⟨t, cat, rep⟩ := r
  have harg : csvRow (ClassificationResult.mk t cat rep) ++ tail =
      '"' :: (escapeQuotes t ++ ('"' :: ',' :: '"' :: (cat ++
        ('"' :: ',' :: '"' :: (escapeQuotes rep ++ ('"' :: tail)))))) := by
    simp [csvRow, List.cons_append, List.append_assoc]
  rw [harg]
  unfold parseRecordLine
  rw [expectChar_cons_self]
  dsimp only
  rw [parseQuotedField_escape t _ (by simp)]
  dsimp only
  rw [expectChar_cons_self]
  dsimp only
  rw [expectChar_cons_self]
  dsimp only
  rw [parseQuotedField_raw cat _ hcat (by simp)]
  dsimp only
  rw [expectChar_cons_self]
  dsimp only
  rw [expectChar_cons_self]
  dsimp only
  rw [parseQuotedField_escape rep _ htail]

/-- Unfolding the record-list parser on a nonempty text. -/
theorem parseRecords_succ_of_ne_nil (fuel : Nat) (l : List Char) (h : l ≠ []) :
    parseRecords (fuel + 1) l =
      match parseRecordLine l with
      | none => none
      | some (r, rest) =>
        match rest with
        | [] => some [r]
        | c2 :: rest2 =>
          if c2 = '\n' then
            match parseRecords fuel rest2 with
            | none => none
            | some rs => some (r :: rs)
          else none := by
  cases l with
  | nil => exact absurd rfl h
  | cons c s => rfl

/-- The newline-joined exported rows parse back to the data exactly,
given enough fuel and quote-free categories. -/
theorem parseRecords_rows : ∀ (data : List ClassificationResult) (fuel : Nat),
    (∀ r ∈ data, ('"' : Char) ∉ r.category) → data.length ≤ fuel →
    parseRecords fuel (joinNl (data.map csvRow)) = some data := by
  intro data
  induction data with
  | nil =>
    intro fuel _ _
    cases fuel <;> rfl
  | cons r rest ih =>
    intro fuel hcat hlen
    cases fuel with
    | zero => simp at hlen
    | succ f =>
      cases rest with
      | nil =>
        rw [show joinNl ([r].map csvRow) = csvRow r ++ [] from by
          simp [joinNl]]
        rw [parseRecords_succ_of_ne_nil f _ (by simp [csvRow])]
        rw [parseRecordLine_csvRow r [] (hcat r (by simp)) (by simp)]
      | cons x xs =>
        have hj : joinNl ((r :: x :: xs).map csvRow) =
            csvRow r ++ '\n' :: joinNl ((x :: xs).map csvRow) := rfl
        rw [hj, parseRecords_succ_of_ne_nil f _ (by simp [csvRow]),
          parseRecordLine_csvRow r _ (hcat r (by simp)) (by simp)]
        dsimp only
        rw [if_pos rfl]
        rw [ih f (fun q hq => hcat q (by simp [hq]))
          (by simp only [List.length_cons] at hlen ⊢; omega)]

/-- The fixed header row contains no newline. -/
theorem headerLine_no_newline : ('\n' : Char) ∉ headerLine := by decide

/-- Dropping the header line of the export exposes the data rows. -/
theorem dropHeaderLine_through (l rest : List Char) (h : ('\n' : Char) ∉ l) :
    dropHeaderLine (l ++ '\n' :: rest) = rest := by
  induction l with
  | nil => simp [dropHeaderLine]
  | cons c cs ih =>
    rw [List.mem_cons, not_or] at h
    have hc : ¬(c = '\n') := fun hh => h.1 hh.symm
    rw [List.cons_append]
    rw [show dropHeaderLine (c :: (cs ++ '\n' :: rest)) =
        dropHeaderLine (cs ++ '\n' :: rest) from by
      conv_lhs => rw [dropHeaderLine.eq_def]
      simp only [if_neg hc]]
    exact ih h.2

/-- The joined rows are at least as long as the data (fuel bound). -/
theorem length_le_joinNl (data : List ClassificationResult) :
    data.length ≤ (joinNl (data.map csvRow)).length := by
  induction data with
  | nil => simp [joinNl]
  | cons r rest ih =>
    cases rest with
    | nil => simp [joinNl, csvRow]
    | cons x xs =>
      have hj : joinNl ((r :: x :: xs).map csvRow) =
          csvRow r ++ '\n' :: joinNl ((x :: xs).map csvRow) := rfl
      rw [hj]
      simp only [List.length_append, List.length_cons] at *
      omega

/-- A result whose category embeds a double quote. -/
def c7Data : List ClassificationResult :=
  [ClassificationResult.mk ['a'] ['x', '"', 'y'] ['b']]

/-- Claim C7 is false as stated: for a result whose category value
contains an embedded double quote, exporting and re-parsing does not
recover the data — the unescaped quote in the category field makes the
produced CSV unparseable, so the round trip fails. -/
theorem c7_counterexample :
    (handleDownloadCSV c7Data).bind parseCsv ≠ some c7Data := by
  decide

/-- Claim C7 amended: for every nonempty sequence of classification
results whose category values contain no embedded double quote,
exporting to CSV and re-parsing the produced text recovers the original
original_text, category and reply values of every row exactly — the
original_text and reply values may freely contain embedded double
quotes, commas and newlines. -/
theorem c7_amended_roundtrip (data : List ClassificationResult)
    (hne : data ≠ [])
    (hcat : ∀ r ∈ data, ('"' : Char) ∉ r.category) :
    ∃ text, handleDownloadCSV data = some text ∧ parseCsv text = some data := by
  refine ⟨joinNl (headerLine :: data.map csvRow), ?_, ?_⟩
  · rw [handleDownloadCSV, if_neg (fun hl => hne (List.length_eq_zero.mp hl))]
  · cases data with
    | nil => exact absurd rfl hne
    | cons d ds =>
      have hj : joinNl (headerLine :: (d :: ds).map csvRow) =
          headerLine ++ '\n' :: joinNl ((d :: ds).map csvRow) := rfl
      rw [parseCsv, hj, dropHeaderLine_through _ _ headerLine_no_newline]
      apply parseRecords_rows (d :: ds) _ hcat
      have hlen := length_le_joinNl (d :: ds)
      simp only [List.length_append, List.length_cons] at *
      omega

/-- A row whose text and reply embed quotes and commas. -/
def c7RoundData : List ClassificationResult :=
  [ClassificationResult.mk ("a,\"x".toList) ("praise".toList)
    ("re\"ply".toList)]

/-- Witness for c7_amended_roundtrip: a concrete row with an embedded
comma and embedded double quotes in text and reply round-trips. -/
theorem c7_amended_roundtrip_witness :
    ∃ text, handleDownloadCSV c7RoundData = some text ∧
      parseCsv text = some c7RoundData :=
  c7_amended_roundtrip c7RoundData (by decide) (by decide)

end CommentTool
